import Mathlib

/-!
Verification of the VerShip release tool core against its specification.

The development shallowly embeds the TypeScript sources:
strings are treated through their character lists, JavaScript number
rendering is modelled by the decimal rendering of natural numbers, and
the file system effects of the changeset store and of the publish
pipeline are modelled by explicit state passing.
-/

namespace VerShip

/-- Whitespace characters recognised by the JavaScript runtime when
trimming strings and when skipping the head of a numeric literal
(ASCII subset, which covers every input considered here). -/
def isJsSpace (c : Char) : Bool :=
  c = ' ' || c = '\t' || c = '\n' || c = '\r' || c = '\x0b' || c = '\x0c'

/-- Value of a list of decimal digit characters, most significant first. -/
def digitsVal (ds : List Char) : Nat :=
  ds.foldl (fun a c => a * 10 + (c.toNat - 48)) 0

/-- Decimal digit characters of a natural number, most significant first.
Reference rendering against which the fuel based rendering used by the
runtime for template literals is proved correct below. -/
def natChars (n : Nat) : List Char :=
  if _h : n < 10 then [Nat.digitChar n]
  else natChars (n / 10) ++ [Nat.digitChar (n % 10)]
decreasing_by exact Nat.div_lt_self (by omega) (by omega)

theorem natChars_of_lt {n : Nat} (h : n < 10) : natChars n = [Nat.digitChar n] := by
  rw [natChars]; simp [h]

theorem natChars_of_ge {n : Nat} (h : 10 ≤ n) :
    natChars n = natChars (n / 10) ++ [Nat.digitChar (n % 10)] := by
  rw [natChars]; simp [Nat.not_lt.2 h]

theorem digitChar_isDigit {d : Nat} (h : d < 10) : (Nat.digitChar d).isDigit = true := by
  interval_cases d <;> decide

theorem digitChar_toNat {d : Nat} (h : d < 10) : (Nat.digitChar d).toNat = d + 48 := by
  interval_cases d <;> decide

theorem natChars_ne_nil (n : Nat) : natChars n ≠ [] := by
  by_cases h : n < 10
  · rw [natChars_of_lt h]; simp
  · rw [natChars_of_ge (Nat.not_lt.1 h)]; simp

theorem natChars_all_digit (n : Nat) : ∀ c ∈ natChars n, c.isDigit = true := by
  induction n using Nat.strong_induction_on with
  | _ n ih =>
    by_cases h : n < 10
    · rw [natChars_of_lt h]
      intro c hc
      simp only [List.mem_singleton] at hc
      exact hc ▸ digitChar_isDigit h
    · rw [natChars_of_ge (Nat.not_lt.1 h)]
      intro c hc
      rcases List.mem_append.1 hc with hc | hc
      · exact ih (n / 10) (Nat.div_lt_self (by omega) (by omega)) c hc
      · simp only [List.mem_singleton] at hc
        exact hc ▸ digitChar_isDigit (Nat.mod_lt _ (by omega))

theorem digitsVal_append_one (l : List Char) (c : Char) :
    digitsVal (l ++ [c]) = digitsVal l * 10 + (c.toNat - 48) := by
  simp [digitsVal, List.foldl_append]

theorem digitsVal_natChars (n : Nat) : digitsVal (natChars n) = n := by
  induction n using Nat.strong_induction_on with
  | _ n ih =>
    by_cases h : n < 10
    · rw [natChars_of_lt h]
      simp [digitsVal, digitChar_toNat h]
    · rw [natChars_of_ge (Nat.not_lt.1 h), digitsVal_append_one,
        ih (n / 10) (Nat.div_lt_self (by omega) (by omega)),
        digitChar_toNat (Nat.mod_lt _ (by omega))]
      omega

theorem toDigitsCore_eq_natChars :
    ∀ (fuel n : Nat) (ds : List Char), n < 10 ^ (fuel + 1) →
      Nat.toDigitsCore 10 (fuel + 1) n ds = natChars n ++ ds := by
  intro fuel
  induction fuel with
  | zero =>
    intro n ds h
    have hn : n < 10 := by simpa using h
    have : n / 10 = 0 := Nat.div_eq_of_lt hn
    simp [Nat.toDigitsCore, this, natChars_of_lt hn, Nat.mod_eq_of_lt hn]
  | succ f ih =>
    intro n ds h
    by_cases hn : n < 10
    · have : n / 10 = 0 := Nat.div_eq_of_lt hn
      simp [Nat.toDigitsCore, this, natChars_of_lt hn, Nat.mod_eq_of_lt hn]
    · have hge : 10 ≤ n := Nat.not_lt.1 hn
      have hdiv : n / 10 ≠ 0 := by
        intro h0
        have := Nat.div_eq_of_lt (show n < 10 by omega)
        omega
      have hlt : n / 10 < 10 ^ (f + 1) := by
        rw [Nat.div_lt_iff_lt_mul (by omega : 0 < 10)]
        calc n < 10 ^ (f + 1 + 1) := h
        _ = 10 ^ (f + 1) * 10 := by ring
      show Nat.toDigitsCore 10 (f + 2) n ds = natChars n ++ ds
      rw [show Nat.toDigitsCore 10 (f + 2) n ds =
            if n / 10 = 0 then Nat.digitChar (n % 10) :: ds
            else Nat.toDigitsCore 10 (f + 1) (n / 10) (Nat.digitChar (n % 10) :: ds)
          from rfl]
      rw [if_neg hdiv, ih (n / 10) _ hlt, natChars_of_ge hge]
      simp

theorem toDigits_eq_natChars (n : Nat) : Nat.toDigits 10 n = natChars n := by
  have h : n < 10 ^ (n + 1) :=
    lt_of_lt_of_le (Nat.lt_pow_self (by omega) n)
      (Nat.pow_le_pow_right (by omega) (Nat.le_succ n))
  have := toDigitsCore_eq_natChars n n [] h
  simpa [Nat.toDigits] using this

theorem repr_data (n : Nat) : (Nat.repr n).data = natChars n := by
  simp [Nat.repr, toDigits_eq_natChars, List.asString]

theorem isDigit_not_space {c : Char} (h : c.isDigit = true) : isJsSpace c = false := by
  simp only [Char.isDigit, decide_eq_true_eq] at h
  simp only [isJsSpace]
  revert h
  simp only [Char.le_def, Char.ofNat, decide_eq_true_eq]
  intro h
  simp only [Bool.or_eq_false_iff, decide_eq_false_iff_not]
  refine ⟨⟨⟨⟨⟨?_, ?_⟩, ?_⟩, ?_⟩, ?_⟩, ?_⟩ <;>
    · intro he
      rw [he] at h
      revert h
      decide

theorem isDigit_ne_chars {c : Char} (h : c.isDigit = true) :
    c ≠ 'v' ∧ c ≠ '-' ∧ c ≠ '+' ∧ c ≠ '.' := by
  simp only [Char.isDigit, decide_eq_true_eq] at h
  refine ⟨?_, ?_, ?_, ?_⟩ <;>
    · intro he
      rw [he] at h
      revert h
      decide

/-- JavaScript numeric prefix parsing after sign handling: the longest
leading run of decimal digits, failing when it is empty. -/
def jsParseDigits (l : List Char) (sign : Int) : Option Int :=
  let ds := l.takeWhile Char.isDigit
  if ds.isEmpty then none else some (sign * (digitsVal ds : Int))

/-- Model of the JavaScript call parseInt(s, 10): skip leading whitespace,
accept one optional sign, then take the longest decimal digit run, giving
NaN (here none) when that run is empty. -/
def jsParseInt (cs : List Char) : Option Int :=
  let l := cs.dropWhile isJsSpace
  if l.head? = some '-' then jsParseDigits l.tail (-1)
  else if l.head? = some '+' then jsParseDigits l.tail 1
  else jsParseDigits l 1

theorem jsParseInt_all_digit {l : List Char} (hne : l ≠ [])
    (hall : ∀ c ∈ l, c.isDigit = true) :
    jsParseInt l = some ((digitsVal l : Nat) : Int) := by
  obtain ⟨hd, tl, rfl⟩ := List.exists_cons_of_ne_nil hne
  have hhd : hd.isDigit = true := hall hd (by simp)
  have hdl : (hd :: tl).dropWhile isJsSpace = hd :: tl := by
    rw [List.dropWhile_cons, isDigit_not_space hhd]
    simp
  have hdig := isDigit_ne_chars hhd
  rw [jsParseInt]
  simp only [hdl, List.head?_cons, List.tail_cons]
  rw [if_neg (by simp [hdig.2.1]), if_neg (by simp [hdig.2.2.1])]
  rw [jsParseDigits]
  have htake : (hd :: tl).takeWhile Char.isDigit = hd :: tl :=
    List.takeWhile_eq_self_iff.2 hall
  simp only [htake]
  rw [if_neg (by simp)]
  simp

theorem jsParseInt_natChars (n : Nat) : jsParseInt (natChars n) = some (n : Int) := by
  rw [jsParseInt_all_digit (natChars_ne_nil n) (natChars_all_digit n), digitsVal_natChars]

/-- Splitting a character list at every occurrence of a separator,
mirroring the JavaScript method split with a one character separator:
the empty string splits to one empty part, a trailing separator yields a
trailing empty part. -/
def splitOnCharList (sep : Char) : List Char → List (List Char)
  | [] => [[]]
  | c :: cs =>
    match splitOnCharList sep cs with
    | [] => [[]]
    | h :: t => if c = sep then [] :: h :: t else (c :: h) :: t

theorem splitOnCharList_ne_nil (sep : Char) (l : List Char) : splitOnCharList sep l ≠ [] := by
  induction l with
  | nil => simp [splitOnCharList]
  | cons c cs ih =>
    rw [splitOnCharList]
    rcases h : splitOnCharList sep cs with _ | ⟨x, xs⟩
    · simp
    · by_cases hc : c = sep <;> simp [hc]

theorem splitOnCharList_no_sep {sep : Char} {l : List Char}
    (h : ∀ c ∈ l, c ≠ sep) : splitOnCharList sep l = [l] := by
  induction l with
  | nil => rfl
  | cons c cs ih =>
    rw [splitOnCharList, ih (fun x hx => h x (List.mem_cons_of_mem _ hx))]
    simp [h c (List.mem_cons_self _ _)]

theorem splitOnCharList_head_eq (sep : Char) :
    ∀ l : List Char,
      (splitOnCharList sep l).head? = some (l.takeWhile (fun c => c != sep)) := by
  intro l
  induction l with
  | nil => rfl
  | cons c cs ih =>
    rw [splitOnCharList]
    rcases hs : splitOnCharList sep cs with _ | ⟨x, xs⟩
    · exact absurd hs (splitOnCharList_ne_nil sep cs)
    · rw [hs] at ih
      simp only [List.head?_cons, Option.some.injEq] at ih
      by_cases hc : c = sep
      · simp [hc, List.takeWhile_cons]
      · simp [hc, List.takeWhile_cons, ih]

theorem splitOnCharList_append_sep {sep : Char} {A B : List Char}
    (hA : ∀ c ∈ A, c ≠ sep) :
    splitOnCharList sep (A ++ sep :: B) = A :: splitOnCharList sep B := by
  induction A with
  | nil =>
    rw [List.nil_append, splitOnCharList]
    rcases h : splitOnCharList sep B with _ | ⟨x, xs⟩
    · exact absurd h (splitOnCharList_ne_nil sep B)
    · simp
  | cons a as ih =>
    rw [List.cons_append, splitOnCharList,
      ih (fun x hx => hA x (List.mem_cons_of_mem _ hx))]
    simp [hA a (List.mem_cons_self _ _)]

/-- Change classification of a changeset record, from src/types/index.ts. -/
inductive ChangeType where
  | major
  | minor
  | patch
deriving DecidableEq, Repr

/-- A changeset record, from src/types/index.ts (the optional monorepo,
author and pr fields play no role in the claims and are omitted). -/
structure Changeset where
  id : String
  type : ChangeType
  summary : String
  createdAt : String
deriving DecidableEq, Repr

/-- Removal of a single leading letter v, as done by the source through
the anchored regular expression replacement in parseVersion. -/
def stripLeadingV (cs : List Char) : List Char :=
  if cs.head? = some 'v' then cs.tail else cs

/-- One component of a version string: the source applies parseInt with
radix ten and rejects NaN and negative results. -/
def parseComponent (part : List Char) : Except String Nat :=
  match jsParseInt part with
  | none => .error ("유효하지 않은 버전 번호입니다: " ++ String.mk part)
  | some n =>
    if n < 0 then .error ("유효하지 않은 버전 번호입니다: " ++ String.mk part)
    else .ok n.toNat

/-- Model of VersionManager.parseVersion in src/core/version.ts: strip a
single leading v, split on dots, require exactly three parts and parse
each with parseInt, rejecting NaN and negative components. -/
def parseVersion (version : String) : Except String (Nat × Nat × Nat) :=
  match splitOnCharList '.' (stripLeadingV version.data) with
  | [p0, p1, p2] => do
    let a ← parseComponent p0
    let b ← parseComponent p1
    let c ← parseComponent p2
    pure (a, b, c)
  | _ => .error ("유효하지 않은 버전 형식입니다: " ++ version)

/-- Rendering of the template literal that joins the three bumped
components with dots in calculateNextVersion. -/
def versionString (a b c : Nat) : String :=
  Nat.repr a ++ "." ++ Nat.repr b ++ "." ++ Nat.repr c

/-- Derived version information, from src/core/version.ts; the nested
changesByType object is flattened into the three count fields. -/
structure VersionInfo where
  current : String
  next : String
  hasChanges : Bool
  majorCount : Nat
  minorCount : Nat
  patchCount : Nat
deriving DecidableEq, Repr

/-- Number of changesets of one classification, as accumulated by the
reduce loop in calculateNextVersion. -/
def countType (changesets : List Changeset) (t : ChangeType) : Nat :=
  (changesets.filter (fun cs => cs.type == t)).length

/-- Model of VersionManager.calculateNextVersion in src/core/version.ts. -/
def calculateNextVersion (currentVersion : String) (changesets : List Changeset) :
    Except String VersionInfo :=
  match parseVersion currentVersion with
  | .error e => .error e
  | .ok (pmaj, pmin, ppat) =>
    if changesets.length = 0 then
      .ok { current := currentVersion, next := currentVersion, hasChanges := false,
            majorCount := 0, minorCount := 0, patchCount := 0 }
    else
      let cMajor := countType changesets ChangeType.major
      let cMinor := countType changesets ChangeType.minor
      let cPatch := countType changesets ChangeType.patch
      let next :=
        if cMajor > 0 then versionString (pmaj + 1) 0 0
        else if cMinor > 0 then versionString pmaj (pmin + 1) 0
        else if cPatch > 0 then versionString pmaj pmin (ppat + 1)
        else versionString pmaj pmin ppat
      .ok { current := currentVersion, next := next, hasChanges := true,
            majorCount := cMajor, minorCount := cMinor, patchCount := cPatch }

/-- Model of VersionManager.compareVersions in src/core/version.ts: the
sign of the result orders the two versions, components compared in major,
minor, patch order through subtraction. -/
def compareVersions (v1 v2 : String) : Except String Int :=
  match parseVersion v1 with
  | .error e => .error e
  | .ok (major1, minor1, patch1) =>
    match parseVersion v2 with
    | .error e => .error e
    | .ok (major2, minor2, patch2) =>
      if major1 ≠ major2 then .ok ((major1 : Int) - (major2 : Int))
      else if minor1 ≠ minor2 then .ok ((minor1 : Int) - (minor2 : Int))
      else .ok ((patch1 : Int) - (patch2 : Int))

theorem parseComponent_all_digit {p : List Char} (hne : p ≠ [])
    (hall : ∀ c ∈ p, c.isDigit = true) :
    parseComponent p = .ok (digitsVal p) := by
  rw [parseComponent, jsParseInt_all_digit hne hall]
  simp

theorem parseComponent_natChars (n : Nat) : parseComponent (natChars n) = .ok n := by
  rw [parseComponent_all_digit (natChars_ne_nil n) (natChars_all_digit n), digitsVal_natChars]

theorem versionString_data (a b c : Nat) :
    (versionString a b c).data = natChars a ++ '.' :: (natChars b ++ '.' :: natChars c) := by
  simp [versionString, String.data_append, repr_data]

theorem parseVersion_versionString (a b c : Nat) :
    parseVersion (versionString a b c) = .ok (a, b, c) := by
  obtain ⟨hd, tl, hht⟩ : ∃ hd tl, natChars a = hd :: tl := by
    rcases h : natChars a with _ | ⟨hd, tl⟩
    · exact absurd h (natChars_ne_nil a)
    · exact ⟨hd, tl, rfl⟩
  have hhd : hd.isDigit = true := natChars_all_digit a hd (by rw [hht]; simp)
  have hsv : stripLeadingV (versionString a b c).data = (versionString a b c).data := by
    rw [stripLeadingV, versionString_data, hht]
    rw [if_neg (by simp [(isDigit_ne_chars hhd).1])]
  rw [parseVersion, hsv, versionString_data]
  have hnd : ∀ n : Nat, ∀ ch ∈ natChars n, ch ≠ '.' := fun n ch hch =>
    (isDigit_ne_chars (natChars_all_digit n ch hch)).2.2.2
  rw [splitOnCharList_append_sep (hnd a), splitOnCharList_append_sep (hnd b),
    splitOnCharList_no_sep (hnd c)]
  simp only [parseComponent_natChars]
  rfl

/-- Spec side notion used by claim C8: the string consists of exactly
three non negative integer components separated by dots. -/
def specSemverTriple (s : String) : Bool :=
  let ps := splitOnCharList '.' s.data
  ps.length == 3 && ps.all (fun p => !p.isEmpty && p.all Char.isDigit)

/-- Relaxed acceptance criterion actually implemented by the source: one
leading v is dropped, the string must have exactly three dot separated
parts, and each part must carry a non negative parseInt value, trailing
garbage after the digits being ignored. -/
def jsAcceptable (s : String) : Bool :=
  let ps := splitOnCharList '.' (stripLeadingV s.data)
  ps.length == 3 && ps.all (fun p =>
    match jsParseInt p with
    | none => false
    | some n => decide (0 ≤ n))

theorem countType_pos {l : List Changeset} {t : ChangeType} :
    0 < countType l t ↔ ∃ cs ∈ l, cs.type = t := by
  constructor
  · intro h
    obtain ⟨cs, hcs⟩ := List.exists_mem_of_length_pos h
    obtain ⟨hm, ht⟩ := List.mem_filter.1 hcs
    exact ⟨cs, hm, by simpa using ht⟩
  · rintro ⟨cs, hm, ht⟩
    have : cs ∈ l.filter (fun cs => cs.type == t) :=
      List.mem_filter.2 ⟨hm, by simp [ht]⟩
    exact List.length_pos.2 (List.ne_nil_of_mem this)

theorem calculateNextVersion_nonempty_eq
    {current : String} {M m p : Nat} {changesets : List Changeset}
    (hparse : parseVersion current = .ok (M, m, p))
    (hne : changesets ≠ []) :
    calculateNextVersion current changesets = .ok
      { current := current,
        next :=
          if 0 < countType changesets ChangeType.major then versionString (M + 1) 0 0
          else if 0 < countType changesets ChangeType.minor then versionString M (m + 1) 0
          else if 0 < countType changesets ChangeType.patch then versionString M m (p + 1)
          else versionString M m p,
        hasChanges := true,
        majorCount := countType changesets ChangeType.major,
        minorCount := countType changesets ChangeType.minor,
        patchCount := countType changesets ChangeType.patch } := by
  have hlen : ¬ (changesets.length = 0) := by simpa [List.length_eq_zero] using hne
  simp only [calculateNextVersion, hparse, if_neg hlen, gt_iff_lt]

/-- C1: with a parseable current version and a non empty changeset list,
the presence of a major changeset forces the next version to be the
current major plus one with minor and patch reset to zero, regardless of
the minor and patch changesets present; absent any major changeset, the
presence of a minor changeset forces the major to stay, the minor to be
incremented and the patch to be reset to zero. -/
theorem calculateNextVersion_major_precedence
    (current : String) (M m p : Nat) (changesets : List Changeset)
    (hparse : parseVersion current = .ok (M, m, p))
    (hne : changesets ≠ []) :
    ((∃ cs ∈ changesets, cs.type = ChangeType.major) →
      ∃ vi, calculateNextVersion current changesets = .ok vi ∧
        vi.next = versionString (M + 1) 0 0 ∧ vi.hasChanges = true) ∧
    ((∀ cs ∈ changesets, cs.type ≠ ChangeType.major) →
      (∃ cs ∈ changesets, cs.type = ChangeType.minor) →
      ∃ vi, calculateNextVersion current changesets = .ok vi ∧
        vi.next = versionString M (m + 1) 0 ∧ vi.hasChanges = true) := by
  constructor
  · intro hmaj
    have h1 : 0 < countType changesets ChangeType.major := countType_pos.2 hmaj
    exact ⟨_, calculateNextVersion_nonempty_eq hparse hne, by simp [if_pos h1], rfl⟩
  · intro hnomaj hmin
    have h1 : ¬ 0 < countType changesets ChangeType.major := by
      rw [countType_pos]
      rintro ⟨cs, hm, ht⟩
      exact hnomaj cs hm ht
    have h2 : 0 < countType changesets ChangeType.minor := countType_pos.2 hmin
    exact ⟨_, calculateNextVersion_nonempty_eq hparse hne,
      by simp [if_neg h1, if_pos h2], rfl⟩

/-- Witness for C1 at the concrete example of the spec: current version
1.0.2 with one minor and one patch changeset. -/
theorem calculateNextVersion_major_precedence_witness :
    (∀ cs ∈ [Changeset.mk "a" ChangeType.minor "dark mode" "t1",
             Changeset.mk "b" ChangeType.patch "fix login" "t2"],
        cs.type ≠ ChangeType.major) ∧
    (∃ cs ∈ [Changeset.mk "a" ChangeType.minor "dark mode" "t1",
             Changeset.mk "b" ChangeType.patch "fix login" "t2"],
        cs.type = ChangeType.minor) ∧
    ∃ vi, calculateNextVersion "1.0.2"
        [Changeset.mk "a" ChangeType.minor "dark mode" "t1",
         Changeset.mk "b" ChangeType.patch "fix login" "t2"] = .ok vi ∧
      vi.next = versionString 1 (0 + 1) 0 ∧ vi.hasChanges = true := by
  refine ⟨by decide, by decide, ?_⟩
  exact (calculateNextVersion_major_precedence "1.0.2" 1 0 2 _ (by rfl)
    (by decide)).2 (by decide) (by decide)

/-- C3: with a parseable current version, the calculator returns the
current version unchanged with hasChanges false exactly on the empty
changeset list, and on a non empty list it returns a version that is
strictly greater than the current one under the semver comparison of the
source, with hasChanges true. -/
theorem calculateNextVersion_strict_growth
    (current : String) (M m p : Nat) (changesets : List Changeset)
    (hparse : parseVersion current = .ok (M, m, p)) :
    (changesets = [] →
      calculateNextVersion current changesets = .ok
        { current := current, next := current, hasChanges := false,
          majorCount := 0, minorCount := 0, patchCount := 0 }) ∧
    (changesets ≠ [] →
      ∃ vi, calculateNextVersion current changesets = .ok vi ∧
        vi.hasChanges = true ∧ vi.next ≠ current ∧
        ∃ d, compareVersions vi.next current = .ok d ∧ 0 < d) := by
  constructor
  · intro he
    subst he
    simp [calculateNextVersion, hparse]
  · intro hne
    obtain ⟨cs0, hcs0⟩ := List.exists_mem_of_ne_nil changesets hne
    have hnext := calculateNextVersion_nonempty_eq hparse hne
    by_cases h1 : 0 < countType changesets ChangeType.major
    · refine ⟨_, hnext, rfl, ?_, ?_⟩
      · simp only [if_pos h1]
        intro he
        have hrt := parseVersion_versionString (M + 1) 0 0
        rw [he, hparse] at hrt
        have := Except.ok.inj hrt
        simp only [Prod.mk.injEq] at this
        omega
      · simp only [if_pos h1]
        simp only [compareVersions, parseVersion_versionString (M + 1) 0 0, hparse]
        rw [if_pos (by omega : (M + 1 : Nat) ≠ M)]
        exact ⟨_, rfl, by omega⟩
    · by_cases h2 : 0 < countType changesets ChangeType.minor
      · refine ⟨_, hnext, rfl, ?_, ?_⟩
        · simp only [if_neg h1, if_pos h2]
          intro he
          have hrt := parseVersion_versionString M (m + 1) 0
          rw [he, hparse] at hrt
          have := Except.ok.inj hrt
          simp only [Prod.mk.injEq] at this
          omega
        · simp only [if_neg h1, if_pos h2]
          simp only [compareVersions, parseVersion_versionString M (m + 1) 0, hparse]
          rw [if_neg (by omega : ¬ (M : Nat) ≠ M)]
          rw [if_pos (by omega : (m + 1 : Nat) ≠ m)]
          exact ⟨_, rfl, by omega⟩
      · have h3 : 0 < countType changesets ChangeType.patch := by
          rcases hty : cs0.type with _ | _ | _
          · exact absurd (countType_pos.2 ⟨cs0, hcs0, hty⟩) h1
          · exact absurd (countType_pos.2 ⟨cs0, hcs0, hty⟩) h2
          · exact countType_pos.2 ⟨cs0, hcs0, hty⟩
        refine ⟨_, hnext, rfl, ?_, ?_⟩
        · simp only [if_neg h1, if_neg h2, if_pos h3]
          intro he
          have hrt := parseVersion_versionString M m (p + 1)
          rw [he, hparse] at hrt
          have := Except.ok.inj hrt
          simp only [Prod.mk.injEq] at this
          omega
        · simp only [if_neg h1, if_neg h2, if_pos h3]
          simp only [compareVersions, parseVersion_versionString M m (p + 1), hparse]
          rw [if_neg (by omega : ¬ (M : Nat) ≠ M)]
          rw [if_neg (by omega : ¬ (m : Nat) ≠ m)]
          exact ⟨_, rfl, by omega⟩

/-- Witness for C3 at a concrete input: current version 2.3.4 with one
patch changeset, and with the empty list. -/
theorem calculateNextVersion_strict_growth_witness :
    (calculateNextVersion "2.3.4" [] = .ok
      { current := "2.3.4", next := "2.3.4", hasChanges := false,
        majorCount := 0, minorCount := 0, patchCount := 0 }) ∧
    ∃ vi, calculateNextVersion "2.3.4" [Changeset.mk "a" ChangeType.patch "fix it" "t"] =
        .ok vi ∧
      vi.hasChanges = true ∧ vi.next ≠ "2.3.4" ∧
      ∃ d, compareVersions vi.next "2.3.4" = .ok d ∧ 0 < d := by
  constructor
  · exact (calculateNextVersion_strict_growth "2.3.4" 2 3 4 [] (by rfl)).1 rfl
  · exact (calculateNextVersion_strict_growth "2.3.4" 2 3 4 _ (by rfl)).2 (by decide)

/-- Counterexample for C8 as frozen: the parser accepts the string
1.2.3abc, which does not consist of three non negative integer
components, because parseInt ignores trailing garbage. -/
theorem parseVersion_accepts_garbage :
    specSemverTriple "1.2.3abc" = false ∧
    parseVersion "1.2.3abc" = .ok (1, 2, 3) := by
  constructor
  · rfl
  · rfl

/-- C8 amended: the parser accepts exactly the strings whose form after
dropping one leading v has three dot separated parts each carrying a non
negative parseInt value (so canonical digit triples are all accepted,
while some strings with an ignored leading v, leading whitespace or sign,
or trailing garbage are also accepted); every other string is a hard
parse error, never a fallback to a default version. -/
theorem parseComponent_isOk (p : List Char) :
    (parseComponent p).isOk =
      (match jsParseInt p with
        | none => false
        | some n => decide (0 ≤ n)) := by
  rcases h : jsParseInt p with _ | n
  · rw [parseComponent, h]
    rfl
  · simp only [parseComponent, h]
    by_cases hn : n < 0
    · rw [if_pos hn]
      have hle : ¬ (0 ≤ n) := by omega
      simp [hle, Except.isOk, Except.toBool]
    · rw [if_neg hn]
      have hle : 0 ≤ n := by omega
      simp [hle, Except.isOk, Except.toBool]

theorem except_bind3_isOk (e1 e2 e3 : Except String Nat) :
    (do
      let a ← e1
      let b ← e2
      let c ← e3
      pure ((a, b, c) : Nat × Nat × Nat) : Except String (Nat × Nat × Nat)).isOk =
      (e1.isOk && e2.isOk && e3.isOk) := by
  rcases e1 <;> rcases e2 <;> rcases e3 <;> rfl

theorem parseVersion_acceptance (s : String) :
    ((parseVersion s).isOk = jsAcceptable s) ∧
    (specSemverTriple s = true → ∃ a b c, parseVersion s = .ok (a, b, c)) := by
  constructor
  · rw [parseVersion, jsAcceptable]
    rcases h : splitOnCharList '.' (stripLeadingV s.data) with _ | ⟨p0, rest⟩
    · simp [Except.isOk, Except.toBool]
    rcases rest with _ | ⟨p1, rest⟩
    · simp [Except.isOk, Except.toBool]
    rcases rest with _ | ⟨p2, rest⟩
    · simp [Except.isOk, Except.toBool]
    rcases rest with _ | ⟨p3, rest⟩
    · show (do
        let a ← parseComponent p0
        let b ← parseComponent p1
        let c ← parseComponent p2
        pure ((a, b, c) : Nat × Nat × Nat) : Except String (Nat × Nat × Nat)).isOk = _
      rw [except_bind3_isOk, parseComponent_isOk p0, parseComponent_isOk p1,
        parseComponent_isOk p2]
      simp [Bool.and_assoc]
    · simp [Except.isOk, Except.toBool]
  · intro hs
    simp only [specSemverTriple, Bool.and_eq_true, beq_iff_eq] at hs
    obtain ⟨hlen, hall⟩ := hs
    rcases hps : splitOnCharList '.' s.data with _ | ⟨p0, rest⟩
    · rw [hps] at hlen; simp at hlen
    rcases rest with _ | ⟨p1, rest⟩
    · rw [hps] at hlen; simp at hlen
    rcases rest with _ | ⟨p2, rest⟩
    · rw [hps] at hlen; simp at hlen
    rcases rest with _ | ⟨p3, rest⟩
    swap
    · rw [hps] at hlen; simp at hlen
    rw [hps] at hall
    simp only [List.all_cons, List.all_nil, Bool.and_eq_true, Bool.and_true,
      Bool.not_eq_true', List.isEmpty_eq_false, List.all_eq_true] at hall
    obtain ⟨⟨h0ne, h0d⟩, ⟨h1ne, h1d⟩, ⟨h2ne, h2d⟩⟩ := hall
    have hhead := splitOnCharList_head_eq '.' s.data
    rw [hps] at hhead
    simp only [List.head?_cons, Option.some.injEq] at hhead
    rcases hdat : s.data with _ | ⟨c, cs⟩
    · rw [hdat] at hhead
      simp only [List.takeWhile_nil] at hhead
      exact absurd hhead h0ne
    rw [hdat, List.takeWhile_cons] at hhead
    by_cases hc : (c != '.') = true
    · rw [if_pos hc] at hhead
      have hcp0 : c ∈ p0 := by rw [hhead]; simp
      have hcd : c.isDigit = true := h0d c hcp0
      have hstrip : stripLeadingV s.data = s.data := by
        rw [stripLeadingV, hdat]
        rw [if_neg (by simp [(isDigit_ne_chars hcd).1])]
      refine ⟨digitsVal p0, digitsVal p1, digitsVal p2, ?_⟩
      rw [parseVersion, hstrip, hps]
      show (do
        let a ← parseComponent p0
        let b ← parseComponent p1
        let c ← parseComponent p2
        pure ((a, b, c) : Nat × Nat × Nat) : Except String (Nat × Nat × Nat)) = _
      rw [parseComponent_all_digit h0ne h0d, parseComponent_all_digit h1ne h1d,
        parseComponent_all_digit h2ne h2d]
      rfl
    · rw [if_neg hc] at hhead
      exact absurd hhead h0ne

/-! Changelog generation and insertion, from src/core/changelog.ts.
Documents are modelled by their lists of lines: the source splits the
document text on newline characters, works on the resulting array of
lines, and joins it back with newlines, and no generated line contains a
newline, so the two representations are interchangeable. -/

/-- Model of the JavaScript method startsWith on strings. -/
def strStartsWith (s pre : String) : Bool :=
  pre.data.isPrefixOf s.data

/-- Whether the JavaScript expression l.trim() yields the empty string. -/
def strTrimEmpty (s : String) : Bool :=
  s.data.all isJsSpace

/-- The title recognition of insertNewEntry: a line starting with the
exact text of the changelog heading. -/
def titleLine (l : String) : Bool :=
  strStartsWith l "# Changelog"

/-- Lines skipped between the title and the insertion point: blank lines
and the two fixed preamble sentences of the generated changelog. -/
def skippableLine (l : String) : Bool :=
  strTrimEmpty l || strStartsWith l "모든 주목할" || strStartsWith l "이 프로젝트는"

/-- Insertion of the new entry after the skippable run, separated by one
blank line, mirroring the index loop of insertNewEntry after the title
line was found. -/
def insertAfterSkip (ls entry : List String) : List String :=
  ls.takeWhile skippableLine ++ ([""] ++ (entry ++ ls.dropWhile skippableLine))

/-- Scan for the first title line; on success the entry is inserted after
it, mirroring the forward scan of insertNewEntry. -/
def tryInsert (entry : List String) : List String → Option (List String)
  | [] => none
  | l :: ls =>
    if titleLine l then some (l :: insertAfterSkip ls entry)
    else (tryInsert entry ls).map (fun r => l :: r)

/-- Model of ChangelogManager.insertNewEntry in src/core/changelog.ts:
insert after the title and its preamble, or prepend the entry to the
whole document when no title line exists. -/
def insertNewEntry (existing entry : List String) : List String :=
  match tryInsert entry existing with
  | some r => r
  | none => entry ++ existing

/-- The generated section heading for one version. -/
def headerLine (version date : String) : String :=
  "## v" ++ version ++ " (" ++ date ++ ")"

/-- The bulleted summary lines of one classification. -/
def bulletLines (changesets : List Changeset) : List String :=
  changesets.map (fun cs => "- " ++ cs.summary)

/-- One classification block of the generated section: nothing when the
classification is empty, else its title, a blank line, the bullets and a
closing blank line. -/
def classSection (title : String) (changesets : List Changeset) : List String :=
  if changesets.isEmpty then []
  else title :: "" :: (bulletLines changesets ++ [""])

/-- Model of ChangelogManager.generateChangelogSection combined with
createChangelogEntry: the heading, a blank line, then the three
classification blocks in major, minor, patch order. -/
def generateChangelogSection (version date : String) (changesets : List Changeset) :
    List String :=
  headerLine version date :: "" ::
    (classSection "### 💥 Breaking Changes"
        (changesets.filter (fun c => c.type == ChangeType.major)) ++
      (classSection "### 🚀 Features"
          (changesets.filter (fun c => c.type == ChangeType.minor)) ++
        classSection "### 🐛 Bug Fixes"
          (changesets.filter (fun c => c.type == ChangeType.patch))))

/-- Model of ChangelogManager.addEntry on an already existing document. -/
def addEntryLines (existing : List String) (version date : String)
    (changesets : List Changeset) : List String :=
  insertNewEntry existing (generateChangelogSection version date changesets)

theorem data_append_cons₂ (s x : String) (c₁ c₂ : Char) (r : List Char)
    (h : s.data = c₁ :: c₂ :: r) : (s ++ x).data = c₁ :: c₂ :: (r ++ x.data) := by
  rw [String.data_append, h]
  rfl

theorem headerLine_data (version date : String) :
    ∃ r, (headerLine version date).data = '#' :: '#' :: r := by
  have h1 : ("## v" ++ version).data = '#' :: '#' :: ([' ', 'v'] ++ version.data) :=
    data_append_cons₂ _ _ _ _ _ rfl
  have h2 := data_append_cons₂ ("## v" ++ version) " (" _ _ _ h1
  have h3 := data_append_cons₂ (("## v" ++ version) ++ " (") date _ _ _ h2
  have h4 := data_append_cons₂ ((("## v" ++ version) ++ " (") ++ date) ")" _ _ _ h3
  exact ⟨_, h4⟩

theorem headerLine_not_title (version date : String) :
    titleLine (headerLine version date) = false := by
  obtain ⟨r, hr⟩ := headerLine_data version date
  rw [titleLine, strStartsWith, hr]
  rfl

theorem headerLine_not_skippable (version date : String) :
    skippableLine (headerLine version date) = false := by
  obtain ⟨r, hr⟩ := headerLine_data version date
  rw [skippableLine, strTrimEmpty, strStartsWith, strStartsWith, hr]
  rfl

theorem bullet_not_title (x : String) : titleLine ("- " ++ x) = false := by
  have h : ("- " ++ x).data = '-' :: ' ' :: ([] ++ x.data) :=
    data_append_cons₂ _ _ _ _ _ rfl
  rw [titleLine, strStartsWith, h]
  rfl

theorem mem_classSection {l ti : String} {cs : List Changeset}
    (h : l ∈ classSection ti cs) :
    l = ti ∨ l = "" ∨ ∃ c ∈ cs, l = "- " ++ c.summary := by
  rw [classSection] at h
  split at h
  · simp at h
  · rcases List.mem_cons.1 h with rfl | h
    · exact Or.inl rfl
    rcases List.mem_cons.1 h with rfl | h
    · exact Or.inr (Or.inl rfl)
    rcases List.mem_append.1 h with h | h
    · rw [bulletLines] at h
      rcases List.mem_map.1 h with ⟨c, hc, hlc⟩
      exact Or.inr (Or.inr ⟨c, hc, hlc.symm⟩)
    · rcases List.mem_singleton.1 h with rfl
      exact Or.inr (Or.inl rfl)

theorem section_lines_not_title (version date : String) (changesets : List Changeset) :
    ∀ l ∈ generateChangelogSection version date changesets, titleLine l = false := by
  intro l hl
  rw [generateChangelogSection] at hl
  simp only [List.mem_cons, List.mem_append] at hl
  rcases hl with h | h | h | h | h
  · exact h ▸ headerLine_not_title version date
  · exact h ▸ rfl
  · rcases mem_classSection h with h' | h' | ⟨c, _, h'⟩
    · exact h' ▸ (by decide)
    · exact h' ▸ rfl
    · exact h' ▸ bullet_not_title c.summary
  · rcases mem_classSection h with h' | h' | ⟨c, _, h'⟩
    · exact h' ▸ (by decide)
    · exact h' ▸ rfl
    · exact h' ▸ bullet_not_title c.summary
  · rcases mem_classSection h with h' | h' | ⟨c, _, h'⟩
    · exact h' ▸ (by decide)
    · exact h' ▸ rfl
    · exact h' ▸ bullet_not_title c.summary

theorem tryInsert_eq_none_iff (entry : List String) :
    ∀ d : List String, tryInsert entry d = none ↔ ∀ l ∈ d, titleLine l = false := by
  intro d
  induction d with
  | nil => simp [tryInsert]
  | cons l ls ih =>
    rw [tryInsert]
    by_cases hl : titleLine l
    · constructor
      · intro h
        rw [if_pos hl] at h
        simp at h
      · intro h
        exact absurd (h l (List.mem_cons_self _ _)) (by simp [hl])
    · rw [if_neg hl]
      constructor
      · intro h x hx
        rcases List.mem_cons.1 hx with rfl | hx
        · simpa using hl
        · refine (ih.1 ?_) x hx
          rcases hni : tryInsert entry ls with _ | r
          · rfl
          · rw [hni] at h
            simp at h
      · intro h
        rw [ih.2 (fun x hx => h x (List.mem_cons_of_mem _ hx))]
        rfl

theorem tryInsert_append_no_title (entry : List String) {xs : List String}
    (ys : List String) (hxs : ∀ l ∈ xs, titleLine l = false) :
    tryInsert entry (xs ++ ys) = (tryInsert entry ys).map (fun r => xs ++ r) := by
  induction xs with
  | nil =>
    rcases h : tryInsert entry ys with _ | r <;> simp [h]
  | cons x xs ih =>
    have hx : titleLine x = false := hxs x (List.mem_cons_self _ _)
    rw [List.cons_append, tryInsert, if_neg (by simp [hx]),
      ih (fun l hl => hxs l (List.mem_cons_of_mem _ hl))]
    rcases h : tryInsert entry ys with _ | r <;> simp [h]

theorem tryInsert_eq_some {entry : List String} :
    ∀ {d r : List String}, tryInsert entry d = some r →
      ∃ A t B, d = A ++ t :: B ∧ (∀ l ∈ A, titleLine l = false) ∧
        titleLine t = true ∧ r = A ++ t :: insertAfterSkip B entry := by
  intro d
  induction d with
  | nil => intro r h; simp [tryInsert] at h
  | cons l ls ih =>
    intro r h
    rw [tryInsert] at h
    by_cases hl : titleLine l
    · rw [if_pos hl] at h
      exact ⟨[], l, ls, rfl, by simp, hl, by simpa using h.symm⟩
    · rw [if_neg hl] at h
      rcases Option.map_eq_some'.1 h with ⟨r', hr', rfl⟩
      obtain ⟨A, t, B, hd, hA, ht, hr⟩ := ih hr'
      refine ⟨l :: A, t, B, by rw [hd, List.cons_append], ?_, ht, by rw [hr, List.cons_append]⟩
      intro x hx
      rcases List.mem_cons.1 hx with rfl | hx
      · simpa using hl
      · exact hA x hx

theorem skippable_of_mem_takeWhile {l : String} {B : List String}
    (h : l ∈ B.takeWhile skippableLine) : skippableLine l = true := by
  induction B with
  | nil => simp [List.takeWhile_nil] at h
  | cons b bs ih =>
    rw [List.takeWhile_cons] at h
    by_cases hb : skippableLine b
    · rw [if_pos hb] at h
      rcases List.mem_cons.1 h with rfl | h
      · exact hb
      · exact ih h
    · rw [if_neg hb] at h
      simp at h

theorem skippableLine_empty : skippableLine "" = true := rfl

theorem takeWhile_entry_suffix (v date : String) (cs : List Changeset) (dw : List String) :
    (generateChangelogSection v date cs ++ dw).takeWhile skippableLine = [] := by
  rw [generateChangelogSection, List.cons_append, List.takeWhile_cons,
    headerLine_not_skippable]
  rfl

theorem dropWhile_entry_suffix (v date : String) (cs : List Changeset) (dw : List String) :
    (generateChangelogSection v date cs ++ dw).dropWhile skippableLine =
      generateChangelogSection v date cs ++ dw := by
  rw [generateChangelogSection, List.cons_append, List.dropWhile_cons,
    headerLine_not_skippable]
  rfl

/-- C4: on any existing document, inserting the section for version v1
and later the section for a larger version v2 yields a document where
the v2 section sits strictly above the v1 section, the v1 section and
every line below it being byte identical to the state before the second
insertion; when the document has no recognised title line, each entry is
prepended before all existing content. -/
theorem changelog_insert_round_trip
    (d : List String) (v1 date1 v2 date2 : String)
    (cs1 cs2 : List Changeset)
    (_hv : ∃ k, compareVersions v2 v1 = .ok k ∧ 0 < k) :
    ∃ P Q B,
      addEntryLines d v1 date1 cs1 =
        P ++ (generateChangelogSection v1 date1 cs1 ++ B) ∧
      addEntryLines (addEntryLines d v1 date1 cs1) v2 date2 cs2 =
        (P ++ Q) ++
          (generateChangelogSection v2 date2 cs2 ++
            (generateChangelogSection v1 date1 cs1 ++ B)) ∧
      ((∀ l ∈ d, titleLine l = false) → P = [] ∧ Q = [] ∧ B = d) := by
  clear _hv
  rcases hti : tryInsert (generateChangelogSection v1 date1 cs1) d with _ | r
  · have hnone := (tryInsert_eq_none_iff _ d).1 hti
    have hd1 : addEntryLines d v1 date1 cs1 = generateChangelogSection v1 date1 cs1 ++ d := by
      rw [addEntryLines, insertNewEntry, hti]
    have hti2 : tryInsert (generateChangelogSection v2 date2 cs2)
        (generateChangelogSection v1 date1 cs1 ++ d) = none := by
      rw [tryInsert_append_no_title _ d (section_lines_not_title v1 date1 cs1),
        (tryInsert_eq_none_iff _ d).2 hnone]
      rfl
    refine ⟨[], [], d, by simpa using hd1, ?_, fun _ => ⟨rfl, rfl, rfl⟩⟩
    rw [addEntryLines, hd1, insertNewEntry, hti2]
    simp
  · obtain ⟨A, t, B0, hdec, hA, ht, hr⟩ := tryInsert_eq_some hti
    have hd1 : addEntryLines d v1 date1 cs1 =
        A ++ t :: insertAfterSkip B0 (generateChangelogSection v1 date1 cs1) := by
      rw [addEntryLines, insertNewEntry, hti, hr]
    rw [insertAfterSkip] at hd1
    have htw : ∀ a ∈ B0.takeWhile skippableLine, skippableLine a = true :=
      fun a ha => skippable_of_mem_takeWhile ha
    have hX : (B0.takeWhile skippableLine ++
          ([""] ++ (generateChangelogSection v1 date1 cs1 ++
            B0.dropWhile skippableLine))).takeWhile skippableLine =
        B0.takeWhile skippableLine ++ [""] := by
      rw [List.takeWhile_append_of_pos htw]
      congr 1
    have hXd : (B0.takeWhile skippableLine ++
          ([""] ++ (generateChangelogSection v1 date1 cs1 ++
            B0.dropWhile skippableLine))).dropWhile skippableLine =
        generateChangelogSection v1 date1 cs1 ++ B0.dropWhile skippableLine := by
      rw [List.dropWhile_append_of_pos htw]
      rw [List.singleton_append, List.dropWhile_cons, skippableLine_empty,
        if_pos rfl, dropWhile_entry_suffix]
    have hti2 : tryInsert (generateChangelogSection v2 date2 cs2)
        (A ++ t :: (B0.takeWhile skippableLine ++
          ([""] ++ (generateChangelogSection v1 date1 cs1 ++
            B0.dropWhile skippableLine)))) =
        some (A ++ t :: ((B0.takeWhile skippableLine ++ [""]) ++
          ([""] ++ (generateChangelogSection v2 date2 cs2 ++
            (generateChangelogSection v1 date1 cs1 ++ B0.dropWhile skippableLine))))) := by
      rw [tryInsert_append_no_title _ _ hA, tryInsert, if_pos ht]
      rw [Option.map_some']
      congr 2
      rw [insertAfterSkip, hX, hXd]
    refine ⟨A ++ t :: B0.takeWhile skippableLine ++ [""], [""],
      B0.dropWhile skippableLine, ?_, ?_, ?_⟩
    · rw [hd1]
      simp [List.append_assoc]
    · rw [addEntryLines, hd1, insertNewEntry, hti2]
      simp [List.append_assoc]
    · intro h
      exact absurd (h t (by rw [hdec]; simp)) (by simp [ht])

/-- Witness for C4 at a concrete document with a title and a stray intro
line, inserting 1.0.0 and then 1.1.0. -/
theorem changelog_insert_round_trip_witness :
    (∃ k, compareVersions "1.1.0" "1.0.0" = .ok k ∧ 0 < k) ∧
    ∃ P Q B,
      addEntryLines ["# Changelog", "", "intro"] "1.0.0" "2024-01-01"
          [Changeset.mk "a" ChangeType.minor "dark mode" "t"] =
        P ++ (generateChangelogSection "1.0.0" "2024-01-01"
          [Changeset.mk "a" ChangeType.minor "dark mode" "t"] ++ B) ∧
      addEntryLines
          (addEntryLines ["# Changelog", "", "intro"] "1.0.0" "2024-01-01"
            [Changeset.mk "a" ChangeType.minor "dark mode" "t"])
          "1.1.0" "2024-02-01" [Changeset.mk "b" ChangeType.patch "fix login" "t2"] =
        (P ++ Q) ++
          (generateChangelogSection "1.1.0" "2024-02-01"
              [Changeset.mk "b" ChangeType.patch "fix login" "t2"] ++
            (generateChangelogSection "1.0.0" "2024-01-01"
                [Changeset.mk "a" ChangeType.minor "dark mode" "t"] ++ B)) ∧
      ((∀ l ∈ ["# Changelog", "", "intro"], titleLine l = false) →
        P = [] ∧ Q = [] ∧ B = ["# Changelog", "", "intro"]) := by
  refine ⟨⟨1, by rfl, by omega⟩, ?_⟩
  exact changelog_insert_round_trip ["# Changelog", "", "intro"] "1.0.0" "2024-01-01"
    "1.1.0" "2024-02-01" _ _ ⟨1, by rfl, by omega⟩

/-! The changeset store, from src/core/changeset.ts. The store directory
is modelled as an association list from file names to file contents; a
content of none stands for a file whose JSON cannot be read, and a
RawRecord keeps, for each of the four fields the structural validation
inspects, whether the field is present and whether it holds a string.
JavaScript date parsing of createdAt values is kept abstract as a
dateParse parameter, some t standing for a valid date with numeric
value t and none for an invalid one. -/

/-- A JSON field value as far as the structural validation distinguishes
it: a string, or a present value of any other type. -/
inductive JsonVal where
  | str (s : String)
  | other
deriving DecidableEq, Repr

/-- A raw changeset record as read from disk. -/
structure RawRecord where
  id : Option JsonVal
  type : Option JsonVal
  summary : Option JsonVal
  createdAt : Option JsonVal
deriving DecidableEq, Repr

/-- The store directory: file names with their readable contents. -/
abbrev Store := List (String × Option RawRecord)

/-- Model of the JavaScript method trim. -/
def jsTrim (s : String) : String :=
  String.mk (((s.data.dropWhile isJsSpace).reverse.dropWhile isJsSpace).reverse)

/-- Model of the JavaScript method endsWith. -/
def strEndsWith (s suff : String) : Bool :=
  suff.data.isSuffixOf s.data

/-- The valid type strings accepted by the structural validation. -/
def changeTypeOfString (s : String) : Option ChangeType :=
  if s = "major" then some ChangeType.major
  else if s = "minor" then some ChangeType.minor
  else if s = "patch" then some ChangeType.patch
  else none

/-- Model of ChangesetManager.validateChangesetStructure: required
fields, id a non blank string, type one of the three classifications,
summary a non blank string, createdAt a string parsing as a date, and
the file name equal to the id followed by the json suffix. -/
def validateChangesetStructure (dateParse : String → Option Int)
    (r : RawRecord) (filename : String) : Except String Changeset :=
  match r.id with
  | none => .error "필수 필드가 누락되었습니다: id"
  | some vid =>
    match r.type with
    | none => .error "필수 필드가 누락되었습니다: type"
    | some vty =>
      match r.summary with
      | none => .error "필수 필드가 누락되었습니다: summary"
      | some vsum =>
        match r.createdAt with
        | none => .error "필수 필드가 누락되었습니다: createdAt"
        | some vca =>
          match vid with
          | .other => .error "id는 비어있지 않은 문자열이어야 합니다."
          | .str ids =>
            if jsTrim ids = "" then .error "id는 비어있지 않은 문자열이어야 합니다."
            else
              match vty with
              | .other => .error "유효하지 않은 타입입니다."
              | .str tys =>
                match changeTypeOfString tys with
                | none => .error "유효하지 않은 타입입니다."
                | some ty =>
                  match vsum with
                  | .other => .error "summary는 비어있지 않은 문자열이어야 합니다."
                  | .str sums =>
                    if jsTrim sums = "" then
                      .error "summary는 비어있지 않은 문자열이어야 합니다."
                    else
                      match vca with
                      | .other => .error "createdAt은 문자열이어야 합니다."
                      | .str cas =>
                        match dateParse cas with
                        | none => .error "createdAt은 유효한 ISO 날짜 문자열이어야 합니다."
                        | some _ =>
                          if filename = ids ++ ".json" then
                            .ok { id := ids, type := ty, summary := sums, createdAt := cas }
                          else .error "파일명이 ID와 일치하지 않습니다."

/-- The listing filter of getAllChangesets: json files other than the
store level configuration record. -/
def isChangesetFile (name : String) : Bool :=
  strEndsWith name ".json" && name ≠ "config.json"

/-- The sort key of the listing: the numeric date value of createdAt. -/
def sortKey (dateParse : String → Option Int) (c : Changeset) : Int :=
  (dateParse c.createdAt).getD 0

/-- Model of ChangesetManager.getAllChangesets: keep the json records
other than the configuration record, skip the unreadable and the
structurally invalid ones, and sort by ascending createdAt. -/
def getAllChangesets (dateParse : String → Option Int) (store : Store) : List Changeset :=
  let files := store.filter (fun e => isChangesetFile e.1)
  let changesets := files.foldl
    (fun acc e =>
      match e.2 with
      | none => acc
      | some r =>
        match validateChangesetStructure dateParse r e.1 with
        | .ok c => acc ++ [c]
        | .error _ => acc)
    []
  changesets.mergeSort (fun a b => decide (sortKey dateParse a ≤ sortKey dateParse b))

/-- Spec side reading of one directory entry: the changeset it
contributes to the listing, none when it is filtered out, unreadable or
invalid. -/
def isValidEntry (dateParse : String → Option Int) (e : String × Option RawRecord) :
    Option Changeset :=
  if isChangesetFile e.1 then
    match e.2 with
    | none => none
    | some r => (validateChangesetStructure dateParse r e.1).toOption
  else none

theorem foldl_collect (dateParse : String → Option Int) :
    ∀ (files : Store) (acc : List Changeset),
      files.foldl
        (fun acc e =>
          match e.2 with
          | none => acc
          | some r =>
            match validateChangesetStructure dateParse r e.1 with
            | .ok c => acc ++ [c]
            | .error _ => acc)
        acc =
      acc ++ files.filterMap
        (fun e => e.2.bind (fun r => (validateChangesetStructure dateParse r e.1).toOption)) := by
  intro files
  induction files with
  | nil => intro acc; simp
  | cons e es ih =>
    intro acc
    rw [List.foldl_cons, List.filterMap_cons]
    rcases e with ⟨name, _ | r⟩
    · rw [ih]
      rfl
    · rcases hv : validateChangesetStructure dateParse r name with err | c
      · rw [ih]
        simp [hv, Except.toOption]
      · rw [ih]
        simp [hv, Except.toOption]

theorem getAllChangesets_raw (dateParse : String → Option Int) (store : Store) :
    getAllChangesets dateParse store =
      (store.filterMap (isValidEntry dateParse)).mergeSort
        (fun a b => decide (sortKey dateParse a ≤ sortKey dateParse b)) := by
  rw [getAllChangesets]
  simp only [foldl_collect, List.nil_append, List.filterMap_filter]
  congr 1
  apply List.filterMap_congr
  intro e _
  rw [isValidEntry]
  rcases e with ⟨name, _ | r⟩ <;> by_cases h : isChangesetFile name <;> simp [h]

/-- C7: the listing returns exactly the records passing structural
validation, with the configuration record and every unreadable or
invalid record excluded rather than failing the listing, sorted by
ascending createdAt. -/
theorem getAllChangesets_spec (dateParse : String → Option Int) (store : Store) :
    (getAllChangesets dateParse store).Perm
        (store.filterMap (isValidEntry dateParse)) ∧
      (getAllChangesets dateParse store).Pairwise
        (fun a b => sortKey dateParse a ≤ sortKey dateParse b) := by
  constructor
  · rw [getAllChangesets_raw]
    exact List.mergeSort_perm _ _
  · rw [getAllChangesets_raw]
    refine List.Pairwise.imp ?_
      (List.sorted_mergeSort ?_ ?_ (store.filterMap (isValidEntry dateParse)))
    · intro a b h
      simpa using h
    · intro a b c hab hbc
      simp only [decide_eq_true_eq] at *
      omega
    · intro a b
      simp only [Bool.or_eq_true, decide_eq_true_eq]
      omega

/-- Whether a file of the given name exists in the store directory,
modelling the fs.access existence probe. -/
def hasFile (store : Store) (name : String) : Bool :=
  store.any (fun e => e.1 == name)

/-- The content written for the store configuration record; none of the
four changeset fields is present in it. -/
def configRecord : RawRecord :=
  { id := none, type := none, summary := none, createdAt := none }

/-- Model of ChangesetManager.init: ensure the configuration record
exists, leaving the store untouched otherwise. -/
def initStore (store : Store) : Store :=
  if hasFile store "config.json" then store
  else store ++ [("config.json", some configRecord)]

/-- The retry loop of generateUniqueId. The stream ids models the random
draws of generateId, the k-th collision switching to draw ids (k + 1);
the fuel argument counts the loop iterations still allowed by the
attempt ceiling of fifty. -/
def genLoop (store : Store) (ids : Nat → String) :
    Nat → String → Nat → String × Nat
  | 0, id, attempts => (id, attempts)
  | fuel + 1, id, attempts =>
    if hasFile store (id ++ ".json") then
      genLoop store ids fuel (ids (attempts + 1)) (attempts + 1)
    else (id, attempts)

/-- Model of ChangesetManager.generateUniqueId: draw and retry while the
drawn id collides with an existing record file, failing once fifty
collisions were seen. -/
def generateUniqueId (ids : Nat → String) (store : Store) : Except String String :=
  let r := genLoop store ids 50 (ids 0) 0
  if r.2 ≥ 50 then .error "고유한 changeset ID를 생성할 수 없습니다. 다시 시도해주세요."
  else .ok r.1

/-- Model of ChangesetManager.validateChangesetInput. The type argument
of the source is already constrained to the three classifications by the
typed embedding, so the includes check on it always passes. -/
def validateChangesetInput (_type : ChangeType) (summary : String) :
    Except String Unit :=
  let trimmed := jsTrim summary
  if trimmed = "" then .error "변경사항 설명이 비어있습니다."
  else if trimmed.length < 5 then .error "변경사항 설명은 최소 5자 이상이어야 합니다."
  else if trimmed.length > 200 then .error "변경사항 설명은 200자를 초과할 수 없습니다."
  else if trimmed.data.contains '\n' || trimmed.data.contains '\r' then
    .error "변경사항 설명에는 줄바꿈 문자를 포함할 수 없습니다."
  else .ok ()

/-- The textual form of a classification, as stored in a record file. -/
def typeString : ChangeType → String
  | ChangeType.major => "major"
  | ChangeType.minor => "minor"
  | ChangeType.patch => "patch"

/-- The record content written for a changeset by writeJsonFile. -/
def rawOf (c : Changeset) : RawRecord :=
  { id := some (.str c.id), type := some (.str (typeString c.type)),
    summary := some (.str c.summary), createdAt := some (.str c.createdAt) }

/-- Model of ChangesetManager.createChangeset: ensure the store, validate
the input, generate a unique id and write one record file keyed by it;
the returned store is the directory state after the call. -/
def createChangeset (ids : Nat → String) (now : String) (type : ChangeType)
    (summary : String) (store : Store) : Except String Changeset × Store :=
  let store := initStore store
  match validateChangesetInput type summary with
  | .error e => (.error e, store)
  | .ok _ =>
    match generateUniqueId ids store with
    | .error e => (.error e, store)
    | .ok id =>
      let c : Changeset := { id := id, type := type, summary := jsTrim summary,
                             createdAt := now }
      (.ok c, store ++ [(id ++ ".json", some (rawOf c))])

theorem genLoop_all_collide (store : Store) (ids : Nat → String) :
    ∀ (fuel a : Nat), (∀ k, k < a + fuel → hasFile store (ids k ++ ".json") = true) →
      genLoop store ids fuel (ids a) a = (ids (a + fuel), a + fuel) := by
  intro fuel
  induction fuel with
  | zero => intro a _; rfl
  | succ f ih =>
    intro a hcol
    rw [genLoop, if_pos (hcol a (by omega))]
    rw [ih (a + 1) (fun k hk => hcol k (by omega))]
    have hco : a + 1 + f = a + (f + 1) := by omega
    rw [hco]

theorem genLoop_spec (store : Store) (ids : Nat → String) :
    ∀ (fuel : Nat) (id : String) (a : Nat),
      (hasFile store ((genLoop store ids fuel id a).1 ++ ".json") = false ∧
        (genLoop store ids fuel id a).2 < a + fuel) ∨
      (genLoop store ids fuel id a).2 = a + fuel := by
  intro fuel
  induction fuel with
  | zero => intro id a; right; rfl
  | succ f ih =>
    intro id a
    rw [genLoop]
    by_cases h : hasFile store (id ++ ".json") = true
    · rw [if_pos h]
      rcases ih (ids (a + 1)) (a + 1) with ⟨h1, h2⟩ | h1
      · exact Or.inl ⟨h1, by omega⟩
      · right
        omega
    · rw [if_neg h]
      exact Or.inl ⟨by simpa using h, by omega⟩

/-- C9: with an already configured store and valid input, fifty
consecutive id collisions make create fail with the id exhaustion error
and leave the store unchanged, and a successful create never reuses an
existing record file: the returned id has no record on disk and the new
store is the old one extended by exactly that new record. -/
theorem createChangeset_collision_safe
    (ids : Nat → String) (now : String) (type : ChangeType) (summary : String)
    (store : Store)
    (hcfg : hasFile store "config.json" = true)
    (hvalid : validateChangesetInput type summary = .ok ()) :
    ((∀ k, k < 50 → hasFile store (ids k ++ ".json") = true) →
      (createChangeset ids now type summary store).1 =
          .error "고유한 changeset ID를 생성할 수 없습니다. 다시 시도해주세요." ∧
        (createChangeset ids now type summary store).2 = store) ∧
    (∀ c st', createChangeset ids now type summary store = (.ok c, st') →
      hasFile store (c.id ++ ".json") = false ∧
      st' = store ++ [(c.id ++ ".json", some (rawOf c))]) := by
  have hinit : initStore store = store := by rw [initStore, if_pos hcfg]
  constructor
  · intro hcol
    have h50 := genLoop_all_collide store ids 50 0 (by simpa using hcol)
    have hgen : generateUniqueId ids store =
        .error "고유한 changeset ID를 생성할 수 없습니다. 다시 시도해주세요." := by
      rw [generateUniqueId, h50]
      rfl
    constructor <;>
      simp only [createChangeset, hinit, hvalid, hgen]
  · intro c st' heq
    simp only [createChangeset, hinit, hvalid] at heq
    rcases hg : generateUniqueId ids store with e | id
    · rw [hg] at heq
      simp at heq
    · rw [hg] at heq
      simp only [Prod.mk.injEq, Except.ok.injEq] at heq
      obtain ⟨hc, hst⟩ := heq
      have hid : hasFile store (id ++ ".json") = false := by
        rw [generateUniqueId] at hg
        by_cases hge : (genLoop store ids 50 (ids 0) 0).2 ≥ 50
        · rw [if_pos hge] at hg
          simp at hg
        · rw [if_neg hge] at hg
          rcases genLoop_spec store ids 50 (ids 0) 0 with ⟨h1, _⟩ | h1
          · rwa [← Except.ok.inj hg]
          · omega
      rw [← hc]
      exact ⟨hid, hst.symm⟩

/-- Witness for C9: a constant id stream colliding with the single
existing record exhausts the ceiling, and on a fresh store the create
succeeds with a record file that did not exist before. -/
theorem createChangeset_collision_safe_witness :
    ((∀ k, k < 50 →
        hasFile [("config.json", some configRecord),
          ("happy-cats-dance.json", none)] ((fun _ => "happy-cats-dance") k ++ ".json") = true) →
      (createChangeset (fun _ => "happy-cats-dance") "t" ChangeType.patch "fix login"
          [("config.json", some configRecord), ("happy-cats-dance.json", none)]).1 =
          .error "고유한 changeset ID를 생성할 수 없습니다. 다시 시도해주세요." ∧
        (createChangeset (fun _ => "happy-cats-dance") "t" ChangeType.patch "fix login"
          [("config.json", some configRecord), ("happy-cats-dance.json", none)]).2 =
          [("config.json", some configRecord), ("happy-cats-dance.json", none)]) ∧
    (∀ c st', createChangeset (fun _ => "happy-cats-dance") "t" ChangeType.patch "fix login"
        [("config.json", some configRecord), ("happy-cats-dance.json", none)] = (.ok c, st') →
      hasFile [("config.json", some configRecord), ("happy-cats-dance.json", none)]
          (c.id ++ ".json") = false ∧
      st' = [("config.json", some configRecord), ("happy-cats-dance.json", none)] ++
        [(c.id ++ ".json", some (rawOf c))]) :=
  createChangeset_collision_safe (fun _ => "happy-cats-dance") "t" ChangeType.patch
    "fix login" [("config.json", some configRecord), ("happy-cats-dance.json", none)]
    (by rfl) (by rfl)

/-- Model of ChangesetManager.consumeChangesets: list the valid records,
then unlink the record file of each listed changeset. -/
def consumeChangesets (dateParse : String → Option Int) (store : Store) :
    List Changeset × Store :=
  let store := initStore store
  let changesets := getAllChangesets dateParse store
  (changesets,
    changesets.foldl (fun st c => st.eraseP (fun e => e.1 == c.id ++ ".json")) store)

theorem eq_of_fst_eq_of_nodup :
    ∀ {l : Store}, (l.map Prod.fst).Nodup →
      ∀ {a b : String × Option RawRecord}, a ∈ l → b ∈ l → a.1 = b.1 → a = b := by
  intro l
  induction l with
  | nil => intro _ a b ha; simp at ha
  | cons x xs ih =>
    intro h a b ha hb hfst
    rw [List.map_cons, List.nodup_cons] at h
    obtain ⟨hx, hxs⟩ := h
    rcases List.mem_cons.1 ha with ha1 | ha1
    · rcases List.mem_cons.1 hb with hb1 | hb1
      · rw [ha1, hb1]
      · exfalso
        apply hx
        have hx1 : x.1 = b.1 := by rw [← ha1]; exact hfst
        rw [hx1]
        exact List.mem_map_of_mem Prod.fst hb1
    · rcases List.mem_cons.1 hb with hb1 | hb1
      · exfalso
        apply hx
        have hx1 : x.1 = a.1 := by rw [← hb1]; exact hfst.symm
        rw [hx1]
        exact List.mem_map_of_mem Prod.fst ha1
      · exact ih hxs ha1 hb1 hfst

theorem validate_ok_filename {dateParse : String → Option Int} {r : RawRecord}
    {filename : String} {c : Changeset}
    (h : validateChangesetStructure dateParse r filename = .ok c) :
    filename = c.id ++ ".json" := by
  unfold validateChangesetStructure at h
  repeat' split at h
  all_goals first
    | exact Except.noConfusion h
    | (have hc := Except.ok.inj h
       subst hc
       assumption)

theorem isValidEntry_some {dateParse : String → Option Int}
    {e : String × Option RawRecord} {c : Changeset}
    (h : isValidEntry dateParse e = some c) :
    isChangesetFile e.1 = true ∧ e.1 = c.id ++ ".json" := by
  obtain ⟨name, content⟩ := e
  rw [isValidEntry] at h
  by_cases hf : isChangesetFile (name, content).1
  · rw [if_pos hf] at h
    rcases content with _ | r
    · simp at h
    · have h' : (validateChangesetStructure dateParse r name).toOption = some c := h
      rcases hv : validateChangesetStructure dateParse r name with err | c'
      · rw [hv] at h'
        simp [Except.toOption] at h'
      · rw [hv] at h'
        simp only [Except.toOption, Option.some.injEq] at h'
        subst h'
        exact ⟨hf, validate_ok_filename hv⟩
  · rw [if_neg hf] at h
    simp at h

theorem eraseP_eq_filter_of_nodup :
    ∀ {store : Store}, (store.map Prod.fst).Nodup → ∀ (n : String),
      store.eraseP (fun e => e.1 == n) = store.filter (fun e => !(e.1 == n)) := by
  intro store
  induction store with
  | nil => intro _ n; rfl
  | cons x xs ih =>
    intro h n
    rw [List.map_cons, List.nodup_cons] at h
    obtain ⟨hx, hxs⟩ := h
    by_cases hxn : x.1 = n
    · rw [List.eraseP_cons_of_pos (by simp [hxn]), List.filter_cons_of_neg (by simp [hxn])]
      symm
      rw [List.filter_eq_self]
      intro e he
      have hne : e.1 ≠ n := by
        intro hen
        apply hx
        have hx1 : x.1 = e.1 := by rw [hxn, ← hen]
        rw [hx1]
        exact List.mem_map_of_mem Prod.fst he
      simp [hne]
    · rw [List.eraseP_cons_of_neg (by simp [hxn]), List.filter_cons_of_pos (by simp [hxn]),
        ih hxs n]

theorem foldl_eraseP_eq_filter :
    ∀ (cs : List Changeset) (store : Store), (store.map Prod.fst).Nodup →
      cs.foldl (fun st c => st.eraseP (fun e => e.1 == c.id ++ ".json")) store =
        store.filter (fun e => !(cs.any (fun c => e.1 == c.id ++ ".json"))) := by
  intro cs
  induction cs with
  | nil =>
    intro store _
    simp
  | cons c cs ih =>
    intro store h
    rw [List.foldl_cons, eraseP_eq_filter_of_nodup h]
    have hnd' : ((store.filter (fun e => !(e.1 == c.id ++ ".json"))).map Prod.fst).Nodup := by
      refine List.Nodup.sublist ?_ h
      exact (List.filter_sublist store).map Prod.fst
    rw [ih _ hnd', List.filter_filter]
    apply List.filter_congr
    intro e _
    simp [Bool.not_or, Bool.and_comm]

theorem config_not_changeset_file : isChangesetFile "config.json" = false := by decide

/-- C10: consuming deletes exactly the record files of the returned
changesets: the new store is the old one with precisely those files
removed, while the configuration record and every record that failed
structural validation remain on disk untouched. -/
theorem consumeChangesets_exact
    (dateParse : String → Option Int) (store : Store)
    (hnd : (store.map Prod.fst).Nodup)
    (hcfg : hasFile store "config.json" = true) :
    (consumeChangesets dateParse store).1 = getAllChangesets dateParse store ∧
    (consumeChangesets dateParse store).2 =
      store.filter (fun e =>
        !((getAllChangesets dateParse store).any (fun c => e.1 == c.id ++ ".json"))) ∧
    (∀ e ∈ store, e.1 = "config.json" → e ∈ (consumeChangesets dateParse store).2) ∧
    (∀ e ∈ store, isValidEntry dateParse e = none →
      e ∈ (consumeChangesets dateParse store).2) := by
  have hinit : initStore store = store := by rw [initStore, if_pos hcfg]
  have h2 : (consumeChangesets dateParse store).2 =
      store.filter (fun e =>
        !((getAllChangesets dateParse store).any (fun c => e.1 == c.id ++ ".json"))) := by
    rw [consumeChangesets, hinit]
    exact foldl_eraseP_eq_filter _ _ hnd
  have hmem : ∀ e ∈ store, isValidEntry dateParse e = none →
      e ∈ (consumeChangesets dateParse store).2 := by
    intro e he hnone
    rw [h2]
    refine List.mem_filter.2 ⟨he, ?_⟩
    simp only [Bool.not_eq_eq_eq_not, Bool.not_true, List.any_eq_false]
    intro c hc
    have hcm : c ∈ store.filterMap (isValidEntry dateParse) :=
      ((getAllChangesets_spec dateParse store).1.mem_iff).1 hc
    rcases List.mem_filterMap.1 hcm with ⟨e', he', hve⟩
    have hfile := (isValidEntry_some hve).2
    intro hen
    have hen' : e.1 = c.id ++ ".json" := by simpa using hen
    have : e = e' := eq_of_fst_eq_of_nodup hnd he he' (by rw [hen', hfile])
    rw [this, hve] at hnone
    exact Option.noConfusion hnone
  refine ⟨by rw [consumeChangesets, hinit], h2, ?_, hmem⟩
  intro e he hcfge
  refine hmem e he ?_
  rw [isValidEntry, if_neg]
  rw [hcfge, config_not_changeset_file]
  simp

/-- Witness for C10 on a concrete store holding the configuration
record, one valid changeset record and one unreadable record. -/
theorem consumeChangesets_exact_witness :
    (consumeChangesets (fun _ => some 0)
        [("config.json", some configRecord),
         ("a.json", some (rawOf (Changeset.mk "a" ChangeType.patch "fix it" "t"))),
         ("bad.json", none)]).1 =
      getAllChangesets (fun _ => some 0)
        [("config.json", some configRecord),
         ("a.json", some (rawOf (Changeset.mk "a" ChangeType.patch "fix it" "t"))),
         ("bad.json", none)] ∧
    (consumeChangesets (fun _ => some 0)
        [("config.json", some configRecord),
         ("a.json", some (rawOf (Changeset.mk "a" ChangeType.patch "fix it" "t"))),
         ("bad.json", none)]).2 =
      List.filter (fun e =>
          !((getAllChangesets (fun _ => some 0)
            [("config.json", some configRecord),
             ("a.json", some (rawOf (Changeset.mk "a" ChangeType.patch "fix it" "t"))),
             ("bad.json", none)]).any (fun c => e.1 == c.id ++ ".json")))
        [("config.json", some configRecord),
         ("a.json", some (rawOf (Changeset.mk "a" ChangeType.patch "fix it" "t"))),
         ("bad.json", none)] ∧
    (∀ e ∈ [("config.json", some configRecord),
         ("a.json", some (rawOf (Changeset.mk "a" ChangeType.patch "fix it" "t"))),
         ("bad.json", none)], e.1 = "config.json" →
      e ∈ (consumeChangesets (fun _ => some 0)
        [("config.json", some configRecord),
         ("a.json", some (rawOf (Changeset.mk "a" ChangeType.patch "fix it" "t"))),
         ("bad.json", none)]).2) ∧
    (∀ e ∈ [("config.json", some configRecord),
         ("a.json", some (rawOf (Changeset.mk "a" ChangeType.patch "fix it" "t"))),
         ("bad.json", none)], isValidEntry (fun _ => some 0) e = none →
      e ∈ (consumeChangesets (fun _ => some 0)
        [("config.json", some configRecord),
         ("a.json", some (rawOf (Changeset.mk "a" ChangeType.patch "fix it" "t"))),
         ("bad.json", none)]).2) :=
  consumeChangesets_exact (fun _ => some 0)
    [("config.json", some configRecord),
     ("a.json", some (rawOf (Changeset.mk "a" ChangeType.patch "fix it" "t"))),
     ("bad.json", none)]
    (by decide) (by rfl)

/-- Witness for C8 amended, evaluated at the canonical triple 1.2.3. -/
theorem parseVersion_acceptance_witness :
    ((parseVersion "1.2.3").isOk = jsAcceptable "1.2.3") ∧
    (specSemverTriple "1.2.3" = true → ∃ a b c, parseVersion "1.2.3" = .ok (a, b, c)) :=
  parseVersion_acceptance "1.2.3"

/-! The publish pipeline, from src/core/publish.ts. External command
outcomes are modelled by a PublishEnv record of booleans, and the
externally visible side effects of git, the npm registry and the GitHub
release API by an explicit World state threaded through the stages; the
changeset store is carried in the world to express frame conditions. -/

/-- The publish configuration, from src/core/publish.ts. -/
structure PublishConfig where
  registry : Option String := none
  access : Option String := none
  tag : Option String := none
  dryRun : Bool := false
  skipBuild : Bool := false
  skipTest : Bool := false
  skipGitPush : Bool := false
  skipNpmPublish : Bool := false
  skipGitHubRelease : Bool := false
deriving DecidableEq, Repr

/-- Outcomes of the external probes and commands used by the pipeline. -/
structure PublishEnv where
  isGitRepo : Bool
  workingDirClean : Bool
  currentBranch : String
  hasPackageJson : Bool
  hasBuildScript : Bool
  hasTestScript : Bool
  buildOk : Bool
  testOk : Bool
  pushOk : Bool
  npmPublishOk : Bool
  localDeleteTagOk : Bool
  remoteDeleteTagOk : Bool
  ghCliAvailable : Bool
  ghAuthenticated : Bool
  ghCreateReleaseOk : Bool
  ghReleaseUrl : Option String
  currentVersion : Option String
deriving DecidableEq, Repr

/-- The externally visible state mutated by the pipeline. -/
structure World where
  localTags : List String
  remoteTags : List String
  npmPublishedVersions : List String
  ghReleases : List String
  changesetStore : Store
deriving DecidableEq, Repr

/-- The PublishResult record built by publish, with the mutable result
object of the source modelled functionally. -/
structure PublishResultState where
  success : Bool := false
  version : String := ""
  gitTag : Option String := none
  npmPublished : Bool := false
  gitPushed : Bool := false
  gitHubReleaseCreated : Bool := false
  gitHubReleaseUrl : Option String := none
  errors : List String := []
deriving DecidableEq, Repr

/-- The outcome of one publish call: the result record, the rethrown
error when the call threw, and the final world. -/
structure PublishOutcome where
  result : PublishResultState
  thrown : Option String
  world : World
deriving DecidableEq, Repr

/-- Model of PublishManager.validatePrePublish: the three critical
checks in source order; the branch, build script and test script checks
are advisory and never block. -/
def validatePrePublish (env : PublishEnv) : Except String Unit :=
  if !env.isGitRepo then
    .error "Git 저장소가 아닙니다. 배포를 위해서는 Git 저장소가 필요합니다."
  else if !env.workingDirClean then
    .error "Working directory가 clean하지 않습니다. 모든 변경사항을 커밋한 후 다시 시도하세요."
  else if !env.hasPackageJson then .error "필수 검증 실패: package.json"
  else .ok ()

/-- Model of PublishManager.runBuild: a missing build script only skips
the build. -/
def runBuild (env : PublishEnv) : Except String Unit :=
  if !env.hasBuildScript then .ok ()
  else if env.buildOk then .ok () else .error "빌드 실패"

/-- Model of PublishManager.runTests. -/
def runTests (env : PublishEnv) : Except String Unit :=
  if !env.hasTestScript then .ok ()
  else if env.testOk then .ok () else .error "테스트 실패"

/-- Model of PublishManager.createAndPushTag: refuse an existing tag,
create the local tag, then push with follow tags; a push failure leaves
the local tag in place. -/
def createAndPushTag (env : PublishEnv) (w : World) (version : String) :
    Except String String × World :=
  let tag := "v" ++ version
  if w.localTags.contains tag then
    (.error ("태그 " ++ tag ++ "가 이미 존재합니다."), w)
  else
    let w := { w with localTags := w.localTags ++ [tag] }
    if env.pushOk then (.ok tag, { w with remoteTags := w.remoteTags ++ [tag] })
    else (.error "푸시 실패", w)

/-- Model of PublishManager.publishToNpm: with dryRun the command gets
the dry run flag and the registry is left untouched. -/
def publishToNpm (env : PublishEnv) (cfg : PublishConfig) (version : String)
    (w : World) : Except String Unit × World :=
  if env.npmPublishOk then
    if cfg.dryRun then (.ok (), w)
    else (.ok (), { w with npmPublishedVersions := w.npmPublishedVersions ++ [version] })
  else (.error "NPM 배포 실패", w)

/-- Model of GitManager.deleteTag with remote removal: the local removal
may fail, the remote removal failure is ignored. -/
def deleteTag (env : PublishEnv) (w : World) (tag : String) :
    Except String Unit × World :=
  if env.localDeleteTagOk then
    let w := { w with localTags := w.localTags.erase tag }
    let w :=
      if env.remoteDeleteTagOk then { w with remoteTags := w.remoteTags.erase tag }
      else w
    (.ok (), w)
  else (.error "태그 삭제 실패", w)

/-- Model of PublishManager.createGitHubRelease. -/
def createGitHubRelease (env : PublishEnv) (version : String) (w : World) :
    Except String (Option String) × World :=
  if !env.ghCliAvailable then (.error "GitHub CLI (gh)가 설치되어 있지 않습니다.", w)
  else if !env.ghAuthenticated then (.error "GitHub CLI 인증이 필요합니다.", w)
  else if env.ghCreateReleaseOk then
    (.ok env.ghReleaseUrl, { w with ghReleases := w.ghReleases ++ ["v" ++ version] })
  else (.error "Release 생성 실패", w)

/-- The catch block of PublishManager.publish: record the error, roll
the created tag back when the registry publish did not happen and was
not skipped, then rethrow the original error. -/
def publishCatch (env : PublishEnv) (cfg : PublishConfig)
    (res : PublishResultState) (w : World) (msg : String) : PublishOutcome :=
  let res := { res with errors := [msg] }
  match res.gitTag with
  | some tag =>
    if !res.npmPublished && !cfg.skipNpmPublish then
      match deleteTag env w tag with
      | (.ok _, w') => { result := res, thrown := some msg, world := w' }
      | (.error rb, w') =>
        { result := { res with errors := res.errors ++ ["태그 롤백 실패: " ++ rb] },
          thrown := some msg, world := w' }
    else { result := res, thrown := some msg, world := w }
  | none => { result := res, thrown := some msg, world := w }

/-- Model of PublishManager.publish: the ordered, individually
skippable stages with the catch block on any thrown stage error. -/
def publish (env : PublishEnv) (cfg : PublishConfig) (w0 : World) : PublishOutcome :=
  let res : PublishResultState := {}
  match validatePrePublish env with
  | .error e => publishCatch env cfg res w0 e
  | .ok _ =>
    match env.currentVersion with
    | none => publishCatch env cfg res w0 "package.json에 version 필드가 없습니다."
    | some currentVersion =>
      let res := { res with version := currentVersion }
      match (if cfg.skipBuild then Except.ok () else runBuild env) with
      | .error e => publishCatch env cfg res w0 e
      | .ok _ =>
        match (if cfg.skipTest then Except.ok () else runTests env) with
        | .error e => publishCatch env cfg res w0 e
        | .ok _ =>
          match (if cfg.skipGitPush then (Except.ok none, w0)
                 else
                   match createAndPushTag env w0 currentVersion with
                   | (.ok t, w) => (Except.ok (some t), w)
                   | (.error e, w) => (Except.error e, w)) with
          | (.error e, w1) => publishCatch env cfg res w1 e
          | (.ok tagOpt, w1) =>
            let res :=
              match tagOpt with
              | some t => { res with gitTag := some t, gitPushed := true }
              | none => res
            match (if cfg.skipNpmPublish then (Except.ok (), w1)
                   else publishToNpm env cfg currentVersion w1) with
            | (.error e, w2) => publishCatch env cfg res w2 e
            | (.ok _, w2) =>
              let res :=
                if cfg.skipNpmPublish then res else { res with npmPublished := true }
              let step :=
                if !cfg.skipGitHubRelease && !cfg.dryRun then
                  match createGitHubRelease env currentVersion w2 with
                  | (.ok url, w') =>
                    ({ res with gitHubReleaseCreated := true, gitHubReleaseUrl := url }, w')
                  | (.error _, w') => (res, w')
                else (res, w2)
              { result := { step.1 with success := true }, thrown := none, world := step.2 }

/-- The result record of PublishManager.canPublish. -/
structure CanPublishResult where
  canPublish : Bool
  reason : Option String
deriving DecidableEq, Repr

/-- Model of PublishManager.canPublish: a failing version lookup refuses
with a generic reason; otherwise publishing is refused exactly when the
latest tag equals the current version prefixed with v. -/
def canPublishCheck (currentVersion : Except String String)
    (latestTag : Option String) : CanPublishResult :=
  match currentVersion with
  | .error _ => { canPublish := false, reason := some "배포 상태를 확인할 수 없습니다." }
  | .ok v =>
    if latestTag == some ("v" ++ v) then
      { canPublish := false, reason := some "이미 현재 버전이 배포되었습니다." }
    else { canPublish := true, reason := none }

/-- C6: with a readable manifest version, publishing is refused with the
duplicate release reason exactly when the latest tag is the current
version prefixed with v, and allowed whenever the latest tag, possibly
absent, differs from that string. -/
theorem canPublish_duplicate_guard (v : String) (latestTag : Option String) :
    (latestTag = some ("v" ++ v) →
      canPublishCheck (.ok v) latestTag =
        { canPublish := false, reason := some "이미 현재 버전이 배포되었습니다." }) ∧
    (latestTag ≠ some ("v" ++ v) →
      canPublishCheck (.ok v) latestTag = { canPublish := true, reason := none }) := by
  constructor
  · intro h
    rw [canPublishCheck, if_pos (by simp [h])]
  · intro h
    rw [canPublishCheck, if_neg (by simp [h])]

/-- Witness for C6 at version 1.0.0, once with the matching latest tag
and once with no tag at all. -/
theorem canPublish_duplicate_guard_witness :
    ((some "v1.0.0" : Option String) = some ("v" ++ "1.0.0") →
      canPublishCheck (.ok "1.0.0") (some "v1.0.0") =
        { canPublish := false, reason := some "이미 현재 버전이 배포되었습니다." }) ∧
    ((some "v1.0.0" : Option String) ≠ some ("v" ++ "1.0.0") →
      canPublishCheck (.ok "1.0.0") (some "v1.0.0") =
        { canPublish := true, reason := none }) :=
  canPublish_duplicate_guard "1.0.0" (some "v1.0.0")

/-- An environment in which every probe and external command succeeds. -/
def envAllOk : PublishEnv :=
  { isGitRepo := true, workingDirClean := true, currentBranch := "main",
    hasPackageJson := true, hasBuildScript := true, hasTestScript := true,
    buildOk := true, testOk := true, pushOk := true, npmPublishOk := true,
    localDeleteTagOk := true, remoteDeleteTagOk := true, ghCliAvailable := true,
    ghAuthenticated := true, ghCreateReleaseOk := true, ghReleaseUrl := some "url",
    currentVersion := some "1.0.0" }

/-- A world with no tags, no published versions and no releases. -/
def worldEmpty : World :=
  { localTags := [], remoteTags := [], npmPublishedVersions := [],
    ghReleases := [], changesetStore := [] }

/-- The dry run configuration with every stage enabled. -/
def dryRunConfig : PublishConfig := { dryRun := true }

/-- C5 failing input evaluated: in dry run mode with all stages enabled
and succeeding, the pipeline still creates the git tag locally and
pushes it to the remote, even though the registry and the release API
are left untouched; the claim that no mutating stage runs is false on
the code. -/
theorem publish_dry_run_mutates_git :
    (publish envAllOk dryRunConfig worldEmpty).world.localTags = ["v1.0.0"] ∧
    (publish envAllOk dryRunConfig worldEmpty).world.remoteTags = ["v1.0.0"] ∧
    (publish envAllOk dryRunConfig worldEmpty).world.npmPublishedVersions = [] ∧
    (publish envAllOk dryRunConfig worldEmpty).world.ghReleases = [] ∧
    (publish envAllOk dryRunConfig worldEmpty).result.success = true := by
  refine ⟨?_, ?_, rfl, rfl, rfl⟩ <;> decide

/-- C2: when the tag stage ran and succeeded and the registry publish is
enabled but fails, the pipeline deletes the freshly created local tag
before rethrowing the registry error, the result carries success false,
and the changeset store is untouched by the whole call. -/
theorem publish_registry_failure_rollback
    (env : PublishEnv) (cfg : PublishConfig) (w : World) (v : String)
    (hval : validatePrePublish env = .ok ())
    (hver : env.currentVersion = some v)
    (hbuild : cfg.skipBuild = false → runBuild env = .ok ())
    (htest : cfg.skipTest = false → runTests env = .ok ())
    (hskipgit : cfg.skipGitPush = false)
    (hfresh : w.localTags.contains ("v" ++ v) = false)
    (hpush : env.pushOk = true)
    (hskipnpm : cfg.skipNpmPublish = false)
    (hnpm : env.npmPublishOk = false)
    (hdel : env.localDeleteTagOk = true) :
    (publish env cfg w).result.success = false ∧
    (publish env cfg w).result.errors = ["NPM 배포 실패"] ∧
    (publish env cfg w).thrown = some "NPM 배포 실패" ∧
    (publish env cfg w).world.localTags = w.localTags ∧
    (publish env cfg w).world.changesetStore = w.changesetStore := by
  have hbuild' : (if cfg.skipBuild then Except.ok () else runBuild env) = Except.ok () := by
    cases hsb : cfg.skipBuild
    · simp [hbuild hsb]
    · simp
  have htest' : (if cfg.skipTest then Except.ok () else runTests env) = Except.ok () := by
    cases hst : cfg.skipTest
    · simp [htest hst]
    · simp
  have hnotmem : ("v" ++ v) ∉ w.localTags := by simpa using hfresh
  have htag0 : createAndPushTag env w v =
      (.ok ("v" ++ v),
        { w with localTags := w.localTags ++ ["v" ++ v],
                 remoteTags := w.remoteTags ++ ["v" ++ v] }) := by
    rw [createAndPushTag]
    rw [if_neg (by simpa using hnotmem)]
    simp [hpush]
  have hnpmeq : publishToNpm env cfg v
      { w with localTags := w.localTags ++ ["v" ++ v],
               remoteTags := w.remoteTags ++ ["v" ++ v] } =
      (.error "NPM 배포 실패",
        { w with localTags := w.localTags ++ ["v" ++ v],
                 remoteTags := w.remoteTags ++ ["v" ++ v] }) := by
    rw [publishToNpm]
    simp [hnpm]
  have herase : (w.localTags ++ ["v" ++ v]).erase ("v" ++ v) = w.localTags := by
    rw [List.erase_append_right _ hnotmem]
    simp
  have hstep : publish env cfg w =
      publishCatch env cfg
        { version := v, gitTag := some ("v" ++ v), gitPushed := true }
        { w with localTags := w.localTags ++ ["v" ++ v],
                 remoteTags := w.remoteTags ++ ["v" ++ v] }
        "NPM 배포 실패" := by
    simp only [publish, hval, hver, hbuild', htest', hskipgit, htag0, hskipnpm,
      hnpmeq, Bool.false_eq_true, if_false]
  rw [hstep]
  cases hrem : env.remoteDeleteTagOk <;>
    simp [publishCatch, deleteTag, hskipnpm, hdel, hrem, herase]

/-- Witness for C2 at a concrete environment in which every stage up to
the tag push succeeds and the registry publish fails. -/
theorem publish_registry_failure_rollback_witness :
    (publish { envAllOk with npmPublishOk := false } {} worldEmpty).result.success = false ∧
    (publish { envAllOk with npmPublishOk := false } {} worldEmpty).result.errors =
      ["NPM 배포 실패"] ∧
    (publish { envAllOk with npmPublishOk := false } {} worldEmpty).thrown =
      some "NPM 배포 실패" ∧
    (publish { envAllOk with npmPublishOk := false } {} worldEmpty).world.localTags =
      worldEmpty.localTags ∧
    (publish { envAllOk with npmPublishOk := false } {} worldEmpty).world.changesetStore =
      worldEmpty.changesetStore :=
  publish_registry_failure_rollback { envAllOk with npmPublishOk := false } {} worldEmpty
    "1.0.0" (by rfl) (by rfl) (fun _ => by rfl) (fun _ => by rfl) (by rfl) (by rfl)
    (by rfl) (by rfl) (by rfl) (by rfl)

end VerShip
